import Mathlib

/-!
Verification of the line-batch translation engine of the
`obsidian-inline-translate` plugin (`src/main.ts`).

Strings of the JavaScript source are embedded as lists of characters
(`JsStr`); a document is a list of lines (a line never contains a newline
character).  `String.split('\n')` becomes `jsSplitOnNl`,
`Array.join('\n')` becomes `jsJoinNl`, and the regular expression
test of whitespace-only lines becomes `isWhitespaceOnly`, using the
character class of the JavaScript regexp metacharacter for whitespace.

The asynchronous per-line loop of the command `inline-translate-line`
(lines 43-52 of `main.ts`) is embedded as the well-founded recursion
`translateLineLoop`; the translation backend is a parameter giving the
text returned by the k-th call of `translateText` (which always returns
a string since it absorbs failures).  `LoopResult` records, besides the
final document, the number of translation calls performed, the number of
loop iterations, and the list of line indices at which `editor.getLine`
was invoked.
-/

/-- JavaScript strings, embedded as lists of characters. -/
abbrev JsStr := List Char

/-- Embedding of `text.split('\n')`: `jsSplitOnNl [] = [[]]`, matching
`"".split('\n') = [""]` in JavaScript. -/
def jsSplitOnNl : JsStr → List JsStr
  | [] => [[]]
  | c :: rest =>
    match jsSplitOnNl rest with
    | [] => [[]]
    | h :: t => if c = '\n' then [] :: h :: t else (c :: h) :: t

/-- Embedding of `parts.join('\n')`. -/
def jsJoinNl : List JsStr → JsStr
  | [] => []
  | [x] => x
  | x :: y :: ys => x ++ '\n' :: jsJoinNl (y :: ys)

/-- The character class matched by the whitespace metacharacter of
JavaScript regular expressions (code points of `\s` in ECMAScript). -/
def isJsWhitespace (c : Char) : Bool :=
  (9 ≤ c.toNat && c.toNat ≤ 13) || c.toNat = 32 || c.toNat = 160 ||
    c.toNat = 5760 || (8192 ≤ c.toNat && c.toNat ≤ 8202) ||
    c.toNat = 8232 || c.toNat = 8233 || c.toNat = 8239 ||
    c.toNat = 8287 || c.toNat = 12288 || c.toNat = 65279

/-- Embedding of the test at line 45 of `main.ts`: the regular expression
matching strings made only of whitespace accepts `s`. -/
def isWhitespaceOnly (s : JsStr) : Bool := s.all isJsWhitespace

/-- Embedding of `editor.getLine(i)` over a document given as its list
of lines. -/
def lineAt (doc : List JsStr) (i : Nat) : JsStr := (doc[i]?).getD []

/-- Embedding of the settings record (`InlineTranslateSettings` of
`main.ts`); the block type is kept as a string, as in the source where it
is a string-literal union compared by a `switch`. -/
structure InlineTranslateSettings where
  blockType : String
  preferredLanguages : List String
  targetLanguage : String
deriving DecidableEq

/-- Embedding of `DEFAULT_SETTINGS` of `main.ts` (lines 12-16). -/
def DEFAULT_SETTINGS : InlineTranslateSettings :=
  { blockType := "codeblock", preferredLanguages := [], targetLanguage := "en" }

/-- Embedding of `formatTranslation` of `main.ts` (lines 105-116); the
`switch` on `this.settings.blockType` becomes a chain of string
comparisons with the same cases and the same default arm. -/
def formatTranslation (bt : String) (text : JsStr) : JsStr :=
  if bt = "codeblock" then
    "```\n".data ++ text ++ "\n```".data
  else if bt = "quotation" then
    jsJoinNl ((jsSplitOnNl text).map (fun line => "> ".data ++ line))
  else if bt = "callout" then
    "> [!translation]- ...\n".data ++
      jsJoinNl ((jsSplitOnNl text).map (fun line => "> ".data ++ line))
  else
    text

/-- Embedding of `getLinesAdded` of `main.ts` (lines 119-130). -/
def getLinesAdded (bt : String) : Nat :=
  if bt = "codeblock" then 3
  else if bt = "quotation" then 1
  else if bt = "callout" then 2
  else 1

/-- Embedding of `translateText` of `main.ts` (lines 90-102).  The remote
call `translate(text, {to, from})` is a parameter `backend` returning
either a translated string or an error; the second component of the
result collects the notices shown.  On failure the original text is
returned together with the error notice; on success the backend's string
is returned with no notice. -/
def translateText (settings : InlineTranslateSettings)
    (backend : JsStr → String → String → Except JsStr JsStr)
    (text : JsStr) : JsStr × List JsStr :=
  match backend text settings.targetLanguage
      (if 0 < settings.preferredLanguages.length then
        settings.preferredLanguages.headD "auto"
      else "auto") with
  | Except.ok translatedText => (translatedText, [])
  | Except.error _ => (text, ["Error translating text. Please try again later.".data])

/-- Embedding of `editor.replaceRange(s, {line, ch1}, {line, ch2})` for a
range inside a single line: the characters of line `line` from `ch1`
(inclusive) to `ch2` (exclusive) are replaced by `s`, whose newline
characters split the result into new document lines. -/
def replaceRange (doc : List JsStr) (s : JsStr) (line ch1 ch2 : Nat) :
    List JsStr :=
  match doc[line]? with
  | some l =>
    doc.take line ++ jsSplitOnNl (l.take ch1 ++ s ++ l.drop ch2) ++
      doc.drop (line + 1)
  | none => doc

/-- Observable outcome of one run of the per-line loop: final document,
number of `translateText` calls, number of loop iterations, and the line
indices at which `editor.getLine` was invoked, in order. -/
structure LoopResult where
  doc : List JsStr
  calls : Nat
  iters : Nat
  inspected : List Nat
deriving DecidableEq

/-- Embedding of the `for` loop of the command `inline-translate-line`
(`main.ts` lines 43-52).  `backend k line` is the string returned by the
k-th call of `translateText` (counting from 0) on `line`; failures are
already absorbed there, so it is total.  A processed line is replaced by
the template of line 48 of the source, after which the body adds
`getLinesAdded() + 1` to both `i` and `endLine` (lines 49-50) and the
`for` step adds one more to `i`. -/
def translateLineLoop (bt : String) (backend : Nat → JsStr → JsStr)
    (doc : List JsStr) (i endLine calls : Nat) : LoopResult :=
  if h : i ≤ endLine then
    if isWhitespaceOnly (lineAt doc i) then
      let r := translateLineLoop bt backend doc (i + 1) endLine calls
      ⟨r.doc, r.calls, r.iters + 1, i :: r.inspected⟩
    else
      let r := translateLineLoop bt backend
        (replaceRange doc
          (lineAt doc i ++ ['\n'] ++
            formatTranslation bt (backend calls (lineAt doc i)) ++ ['\n'])
          i 0 (lineAt doc i).length)
        ((i + (getLinesAdded bt + 1)) + 1)
        (endLine + (getLinesAdded bt + 1))
        (calls + 1)
      ⟨r.doc, r.calls, r.iters + 1, i :: r.inspected⟩
  else ⟨doc, calls, 0, []⟩
termination_by endLine + 1 - i
decreasing_by all_goals omega

/-- Fuelled mirror of `translateLineLoop`, definitionally structural so
that concrete runs evaluate inside the kernel; `loop_eval` proves it
agrees with the loop whenever the fuel covers the range. -/
def translateLineLoopAux (fuel : Nat) (bt : String)
    (backend : Nat → JsStr → JsStr) (doc : List JsStr)
    (i endLine calls : Nat) : LoopResult :=
  match fuel with
  | 0 => ⟨doc, calls, 0, []⟩
  | fuel + 1 =>
    if i ≤ endLine then
      if isWhitespaceOnly (lineAt doc i) then
        let r := translateLineLoopAux fuel bt backend doc (i + 1) endLine calls
        ⟨r.doc, r.calls, r.iters + 1, i :: r.inspected⟩
      else
        let r := translateLineLoopAux fuel bt backend
          (replaceRange doc
            (lineAt doc i ++ ['\n'] ++
              formatTranslation bt (backend calls (lineAt doc i)) ++ ['\n'])
            i 0 (lineAt doc i).length)
          ((i + (getLinesAdded bt + 1)) + 1)
          (endLine + (getLinesAdded bt + 1))
          (calls + 1)
        ⟨r.doc, r.calls, r.iters + 1, i :: r.inspected⟩
    else ⟨doc, calls, 0, []⟩

/-- Number of lines of `doc` with index in `[i, e]` whose text is not
entirely whitespace. -/
def countNonWs (doc : List JsStr) (i e : Nat) : Nat :=
  ((List.range' i (e + 1 - i)).filter
    (fun j => !isWhitespaceOnly (lineAt doc j))).length

/-- Observable outcome of the command `translate-to-notice`: notices
shown (in order), clipboard content written (`none` when untouched),
final document, number of translation calls. -/
structure NoticeCmdResult where
  notices : List JsStr
  clipboard : Option JsStr
  doc : List JsStr
  translateCalls : Nat
deriving DecidableEq

/-- Embedding of the command `translate-to-notice` of `main.ts`
(lines 57-70).  The JavaScript truthiness test `if (selection)` holds
exactly when the selection string is non-empty. -/
def translateToNoticeCmd (settings : InlineTranslateSettings)
    (backend : JsStr → String → String → Except JsStr JsStr)
    (selection : JsStr) (doc : List JsStr) : NoticeCmdResult :=
  if 0 < selection.length then
    { notices := (translateText settings backend selection).2 ++
        [(translateText settings backend selection).1],
      clipboard := some (translateText settings backend selection).1,
      doc := doc,
      translateCalls := 1 }
  else
    { notices := ["No text selected for translation.".data],
      clipboard := none,
      doc := doc,
      translateCalls := 0 }

/-- A persisted settings object as `loadData()` returns it: any subset of
the fields may be present (`loadData` yields `null` on first run, i.e.
all fields absent). -/
structure PersistedSettings where
  blockType : Option String
  preferredLanguages : Option (List String)
  targetLanguage : Option String
deriving DecidableEq

/-- Embedding of `loadSettings` of `main.ts` (lines 133-135):
`Object.assign({}, DEFAULT_SETTINGS, persisted)` overlays the persisted
fields on the defaults field by field. -/
def loadSettings (persisted : PersistedSettings) : InlineTranslateSettings :=
  { blockType := persisted.blockType.getD DEFAULT_SETTINGS.blockType,
    preferredLanguages :=
      persisted.preferredLanguages.getD DEFAULT_SETTINGS.preferredLanguages,
    targetLanguage :=
      persisted.targetLanguage.getD DEFAULT_SETTINGS.targetLanguage }

/-- Embedding of `saveSettings` of `main.ts` (lines 138-140): the full
settings record is persisted, every field present. -/
def saveSettings (s : InlineTranslateSettings) : PersistedSettings :=
  { blockType := some s.blockType,
    preferredLanguages := some s.preferredLanguages,
    targetLanguage := some s.targetLanguage }

/-! ### Lemmas on splitting and joining at newlines -/

theorem jsSplitOnNl_ne_nil (s : JsStr) : jsSplitOnNl s ≠ [] := by
  induction s with
  | nil => simp [jsSplitOnNl]
  | cons c rest ih =>
    obtain ⟨h, t, hht⟩ := List.exists_cons_of_ne_nil ih
    simp only [jsSplitOnNl, hht]
    split <;> simp

theorem jsSplitOnNl_cons_nl (rest : JsStr) :
    jsSplitOnNl ('\n' :: rest) = [] :: jsSplitOnNl rest := by
  obtain ⟨h, t, hht⟩ := List.exists_cons_of_ne_nil (jsSplitOnNl_ne_nil rest)
  simp [jsSplitOnNl, hht]

theorem jsSplitOnNl_cons_ne (c : Char) (rest : JsStr) (h : JsStr)
    (t : List JsStr) (hc : c ≠ '\n') (hs : jsSplitOnNl rest = h :: t) :
    jsSplitOnNl (c :: rest) = (c :: h) :: t := by
  simp [jsSplitOnNl, hs, hc]

theorem jsSplitOnNl_eq_single (a : JsStr) (ha : '\n' ∉ a) :
    jsSplitOnNl a = [a] := by
  induction a with
  | nil => rfl
  | cons c rest ih =>
    simp only [List.mem_cons, not_or] at ha
    exact jsSplitOnNl_cons_ne c rest rest [] (fun hcn => ha.1 hcn.symm)
      (ih ha.2)

theorem jsSplitOnNl_append_nl (a b : JsStr) (ha : '\n' ∉ a) :
    jsSplitOnNl (a ++ '\n' :: b) = a :: jsSplitOnNl b := by
  induction a with
  | nil => simpa using jsSplitOnNl_cons_nl b
  | cons c rest ih =>
    simp only [List.mem_cons, not_or] at ha
    exact jsSplitOnNl_cons_ne c (rest ++ '\n' :: b) rest (jsSplitOnNl b)
      (fun hcn => ha.1 hcn.symm) (ih ha.2)

theorem jsSplitOnNl_append_last_nl (x : JsStr) :
    jsSplitOnNl (x ++ ['\n']) = jsSplitOnNl x ++ [[]] := by
  induction x with
  | nil => simp [jsSplitOnNl_cons_nl, jsSplitOnNl]
  | cons c rest ih =>
    obtain ⟨h, t, hht⟩ := List.exists_cons_of_ne_nil (jsSplitOnNl_ne_nil rest)
    by_cases hc : c = '\n'
    · subst hc
      rw [List.cons_append, jsSplitOnNl_cons_nl, jsSplitOnNl_cons_nl, ih,
        List.cons_append]
    · have h2 : jsSplitOnNl (rest ++ ['\n']) = h :: (t ++ [[]]) := by
        rw [ih, hht]; rfl
      rw [List.cons_append, jsSplitOnNl_cons_ne c _ h (t ++ [[]]) hc h2,
        jsSplitOnNl_cons_ne c rest h t hc hht, List.cons_append]

theorem jsSplitOnNl_length (s : JsStr) :
    (jsSplitOnNl s).length = s.count '\n' + 1 := by
  induction s with
  | nil => rfl
  | cons c rest ih =>
    obtain ⟨h, t, hht⟩ := List.exists_cons_of_ne_nil (jsSplitOnNl_ne_nil rest)
    by_cases hc : c = '\n'
    · subst hc
      rw [jsSplitOnNl_cons_nl]
      simp only [List.length_cons, List.count_cons, ih]
      simp
    · rw [jsSplitOnNl_cons_ne c rest h t hc hht]
      rw [hht] at ih
      simp only [List.length_cons, List.count_cons] at ih ⊢
      simp [hc, ih]

theorem not_nl_mem_of_mem_jsSplitOnNl (s : JsStr) :
    ∀ p ∈ jsSplitOnNl s, '\n' ∉ p := by
  induction s with
  | nil => simp [jsSplitOnNl]
  | cons c rest ih =>
    obtain ⟨h, t, hht⟩ := List.exists_cons_of_ne_nil (jsSplitOnNl_ne_nil rest)
    rw [hht] at ih
    by_cases hc : c = '\n'
    · subst hc
      rw [jsSplitOnNl_cons_nl, hht]
      intro p hp
      rcases List.mem_cons.mp hp with hp | hp
      · simp [hp]
      · exact ih p hp
    · rw [jsSplitOnNl_cons_ne c rest h t hc hht]
      intro p hp
      rcases List.mem_cons.mp hp with hp | hp
      · subst hp
        simp only [List.mem_cons, not_or]
        exact ⟨fun hcn => hc hcn.symm, ih h (by simp)⟩
      · exact ih p (by simp [hp])

theorem jsSplitOnNl_jsJoinNl (parts : List JsStr) (hne : parts ≠ [])
    (hp : ∀ p ∈ parts, '\n' ∉ p) : jsSplitOnNl (jsJoinNl parts) = parts := by
  induction parts with
  | nil => cases hne rfl
  | cons p rest ih =>
    cases rest with
    | nil => simpa [jsJoinNl] using jsSplitOnNl_eq_single p (hp p (by simp))
    | cons q rest2 =>
      rw [show jsJoinNl (p :: q :: rest2) = p ++ '\n' :: jsJoinNl (q :: rest2)
          from rfl,
        jsSplitOnNl_append_nl _ _ (hp p (by simp)),
        ih (by simp) (fun x hx => hp x (by simp [hx]))]

/-! ### Step lemmas for the per-line loop -/

theorem translateLineLoop_stop (bt : String) (b : Nat → JsStr → JsStr)
    (doc : List JsStr) (i e c : Nat) (h : ¬ i ≤ e) :
    translateLineLoop bt b doc i e c = ⟨doc, c, 0, []⟩ := by
  rw [translateLineLoop.eq_def]
  simp [h]

theorem translateLineLoop_ws (bt : String) (b : Nat → JsStr → JsStr)
    (doc : List JsStr) (i e c : Nat) (h : i ≤ e)
    (hws : isWhitespaceOnly (lineAt doc i) = true) :
    translateLineLoop bt b doc i e c =
      ⟨(translateLineLoop bt b doc (i + 1) e c).doc,
       (translateLineLoop bt b doc (i + 1) e c).calls,
       (translateLineLoop bt b doc (i + 1) e c).iters + 1,
       i :: (translateLineLoop bt b doc (i + 1) e c).inspected⟩ := by
  conv_lhs => rw [translateLineLoop.eq_def]
  simp [h, hws]

theorem translateLineLoop_proc (bt : String) (b : Nat → JsStr → JsStr)
    (doc : List JsStr) (i e c : Nat) (h : i ≤ e)
    (hws : isWhitespaceOnly (lineAt doc i) = false) :
    translateLineLoop bt b doc i e c =
      ⟨(translateLineLoop bt b
          (replaceRange doc
            (lineAt doc i ++ ['\n'] ++
              formatTranslation bt (b c (lineAt doc i)) ++ ['\n'])
            i 0 (lineAt doc i).length)
          ((i + (getLinesAdded bt + 1)) + 1) (e + (getLinesAdded bt + 1))
          (c + 1)).doc,
       (translateLineLoop bt b
          (replaceRange doc
            (lineAt doc i ++ ['\n'] ++
              formatTranslation bt (b c (lineAt doc i)) ++ ['\n'])
            i 0 (lineAt doc i).length)
          ((i + (getLinesAdded bt + 1)) + 1) (e + (getLinesAdded bt + 1))
          (c + 1)).calls,
       (translateLineLoop bt b
          (replaceRange doc
            (lineAt doc i ++ ['\n'] ++
              formatTranslation bt (b c (lineAt doc i)) ++ ['\n'])
            i 0 (lineAt doc i).length)
          ((i + (getLinesAdded bt + 1)) + 1) (e + (getLinesAdded bt + 1))
          (c + 1)).iters + 1,
       i :: (translateLineLoop bt b
          (replaceRange doc
            (lineAt doc i ++ ['\n'] ++
              formatTranslation bt (b c (lineAt doc i)) ++ ['\n'])
            i 0 (lineAt doc i).length)
          ((i + (getLinesAdded bt + 1)) + 1) (e + (getLinesAdded bt + 1))
          (c + 1)).inspected⟩ := by
  conv_lhs => rw [translateLineLoop.eq_def]
  simp [h, hws]

theorem translateLineLoopAux_eq (bt : String) (b : Nat → JsStr → JsStr) :
    ∀ fuel doc i e c, e + 1 - i ≤ fuel →
      translateLineLoopAux fuel bt b doc i e c =
        translateLineLoop bt b doc i e c := by
  intro fuel
  induction fuel with
  | zero =>
    intro doc i e c hf
    rw [translateLineLoop_stop bt b doc i e c (by omega)]
    rfl
  | succ fuel ih =>
    intro doc i e c hf
    by_cases h : i ≤ e
    · cases hws : isWhitespaceOnly (lineAt doc i) with
      | true =>
        rw [translateLineLoop_ws bt b doc i e c h hws]
        simp only [translateLineLoopAux, h, if_true, hws]
        rw [ih _ _ _ _ (by omega)]
      | false =>
        rw [translateLineLoop_proc bt b doc i e c h hws]
        simp only [translateLineLoopAux, h, if_true, hws, Bool.false_eq_true,
          if_false]
        rw [ih _ _ _ _ (by omega)]
    · rw [translateLineLoop_stop bt b doc i e c h]
      simp [translateLineLoopAux, h]

/-- Concrete runs of the loop evaluate through the structurally recursive
mirror with exact fuel. -/
theorem translateLineLoop_eval (bt : String) (b : Nat → JsStr → JsStr)
    (doc : List JsStr) (i e c : Nat) :
    translateLineLoop bt b doc i e c =
      translateLineLoopAux (e + 1 - i) bt b doc i e c :=
  (translateLineLoopAux_eq bt b (e + 1 - i) doc i e c le_rfl).symm

/-! ### Lines produced by the formatter -/

theorem formatTranslation_codeblock_lines (t : JsStr) (ht : '\n' ∉ t) :
    jsSplitOnNl (formatTranslation "codeblock" t)
      = ["```".data, t, "```".data] := by
  have e0 : formatTranslation "codeblock" t
      = "```\n".data ++ t ++ "\n```".data := rfl
  have d1 : "```\n".data = "```".data ++ ['\n'] := by decide
  have d2 : "\n```".data = '\n' :: "```".data := by decide
  have e1 : "```\n".data ++ t ++ "\n```".data
      = "```".data ++ '\n' :: (t ++ '\n' :: "```".data) := by
    rw [d1, d2]; simp
  rw [e0, e1, jsSplitOnNl_append_nl _ _ (by decide),
    jsSplitOnNl_append_nl _ _ ht, jsSplitOnNl_eq_single _ (by decide)]

theorem formatTranslation_quot_eq (text : JsStr) :
    formatTranslation "quotation" text
      = jsJoinNl ((jsSplitOnNl text).map (fun line => "> ".data ++ line)) :=
  rfl

theorem formatTranslation_callout_eq (text : JsStr) :
    formatTranslation "callout" text
      = "> [!translation]- ...\n".data ++
          jsJoinNl ((jsSplitOnNl text).map (fun line => "> ".data ++ line)) :=
  rfl

theorem formatTranslation_default (bt : String) (text : JsStr)
    (h1 : bt ≠ "codeblock") (h2 : bt ≠ "quotation") (h3 : bt ≠ "callout") :
    formatTranslation bt text = text := by
  simp [formatTranslation, h1, h2, h3]

theorem quoted_parts_nl_free (text : JsStr) :
    ∀ p ∈ (jsSplitOnNl text).map (fun line => "> ".data ++ line),
      '\n' ∉ p := by
  intro p hp
  obtain ⟨l, hl, rfl⟩ := List.mem_map.mp hp
  intro hmem
  rcases List.mem_append.mp hmem with hmem | hmem
  · exact absurd hmem (by decide)
  · exact not_nl_mem_of_mem_jsSplitOnNl text l hl hmem

theorem formatTranslation_quot_lines (text : JsStr) :
    jsSplitOnNl (formatTranslation "quotation" text)
      = (jsSplitOnNl text).map (fun line => "> ".data ++ line) := by
  rw [formatTranslation_quot_eq]
  exact jsSplitOnNl_jsJoinNl _
    (by simpa using jsSplitOnNl_ne_nil text) (quoted_parts_nl_free text)

theorem formatTranslation_callout_lines (text : JsStr) :
    jsSplitOnNl (formatTranslation "callout" text)
      = "> [!translation]- ...".data ::
          (jsSplitOnNl text).map (fun line => "> ".data ++ line) := by
  rw [formatTranslation_callout_eq]
  have d1 : "> [!translation]- ...\n".data
      = "> [!translation]- ...".data ++ ['\n'] := by decide
  have e1 : "> [!translation]- ...\n".data ++
      jsJoinNl ((jsSplitOnNl text).map (fun line => "> ".data ++ line))
      = "> [!translation]- ...".data ++ '\n' ::
          jsJoinNl ((jsSplitOnNl text).map (fun line => "> ".data ++ line)) := by
    rw [d1]; simp
  rw [e1, jsSplitOnNl_append_nl _ _ (by decide),
    jsSplitOnNl_jsJoinNl _ (by simpa using jsSplitOnNl_ne_nil text)
      (quoted_parts_nl_free text)]

/-- For a single-line input the formatted block occupies exactly
`getLinesAdded` document lines, whatever the block type. -/
theorem formatTranslation_lines_count (bt : String) (t : JsStr)
    (ht : '\n' ∉ t) :
    (jsSplitOnNl (formatTranslation bt t)).length = getLinesAdded bt := by
  by_cases h1 : bt = "codeblock"
  · subst h1
    rw [formatTranslation_codeblock_lines t ht]
    rfl
  · by_cases h2 : bt = "quotation"
    · subst h2
      rw [formatTranslation_quot_lines, jsSplitOnNl_eq_single t ht]
      rfl
    · by_cases h3 : bt = "callout"
      · subst h3
        rw [formatTranslation_callout_lines, jsSplitOnNl_eq_single t ht]
        rfl
      · rw [formatTranslation_default bt t h1 h2 h3,
          jsSplitOnNl_eq_single t ht]
        simp [getLinesAdded, h1, h2, h3]

/-! ### The replacement performed on a processed line -/

/-- Replacing the full character range of line `i` by
`line + newline + fmt + newline` keeps the original line in place and
inserts after it the lines of `fmt` followed by one empty line. -/
theorem replaceRange_fullLine (doc : List JsStr) (i : Nat) (line fmt : JsStr)
    (hget : doc[i]? = some line) (hline : '\n' ∉ line) :
    replaceRange doc (line ++ ['\n'] ++ fmt ++ ['\n']) i 0 line.length
      = (doc.take i ++ (line :: (jsSplitOnNl fmt ++ [[]]))) ++
          doc.drop (i + 1) := by
  unfold replaceRange
  rw [hget]
  simp only [List.take_zero, List.drop_length, List.nil_append,
    List.append_nil]
  have e1 : line ++ ['\n'] ++ fmt ++ ['\n'] = line ++ '\n' :: (fmt ++ ['\n']) := by
    simp
  rw [e1, jsSplitOnNl_append_nl _ _ hline, jsSplitOnNl_append_last_nl]

theorem drop_replaceRange_fullLine (doc : List JsStr) (i : Nat)
    (line fmt : JsStr) (hget : doc[i]? = some line) (hline : '\n' ∉ line) :
    (replaceRange doc (line ++ ['\n'] ++ fmt ++ ['\n']) i 0 line.length).drop
        (i + (jsSplitOnNl fmt).length + 2)
      = doc.drop (i + 1) := by
  rw [replaceRange_fullLine doc i line fmt hget hline]
  have hi : i < doc.length := by
    by_contra hx
    push_neg at hx
    rw [List.getElem?_eq_none hx] at hget
    cases hget
  apply List.drop_left'
  simp only [List.length_append, List.length_cons, List.length_take_of_le
    (le_of_lt hi), List.length_nil]
  omega

/-! ### Reading a line through a tail agreement -/

theorem getElem?_eq_of_drop_eq (doc doc0 : List JsStr) (i0 sh : Nat)
    (hdrop : doc.drop (i0 + sh) = doc0.drop i0) :
    doc[i0 + sh]? = doc0[i0]? := by
  have a1 := List.getElem?_drop doc (i0 + sh) 0
  have a2 := List.getElem?_drop doc0 i0 0
  rw [hdrop] at a1
  rw [a2] at a1
  simpa using a1.symm

theorem lineAt_eq_of_drop_eq (doc doc0 : List JsStr) (i0 sh : Nat)
    (hdrop : doc.drop (i0 + sh) = doc0.drop i0) :
    lineAt doc (i0 + sh) = lineAt doc0 i0 := by
  unfold lineAt
  rw [getElem?_eq_of_drop_eq doc doc0 i0 sh hdrop]

theorem getElem?_of_not_ws (doc : List JsStr) (i : Nat)
    (hws : isWhitespaceOnly (lineAt doc i) = false) :
    doc[i]? = some (lineAt doc i) := by
  unfold lineAt at *
  cases hg : doc[i]? with
  | none => rw [hg] at hws; simp [isWhitespaceOnly] at hws
  | some l => simp [hg]

/-! ### Counting the non-whitespace lines of a range -/

theorem countNonWs_of_gt (doc : List JsStr) (i e : Nat) (h : e < i) :
    countNonWs doc i e = 0 := by
  have h1 : e + 1 - i = 0 := by omega
  simp [countNonWs, h1]

theorem countNonWs_step (doc : List JsStr) (i e : Nat) (h : i ≤ e) :
    countNonWs doc i e =
      (if isWhitespaceOnly (lineAt doc i) then 0 else 1) +
        countNonWs doc (i + 1) e := by
  unfold countNonWs
  have h1 : e + 1 - i = (e + 1 - (i + 1)) + 1 := by omega
  rw [h1, List.range'_succ]
  cases hws : isWhitespaceOnly (lineAt doc i) <;>
    simp [List.filter_cons, hws, Nat.add_comm]

/-! ### The two loop invariants: iteration count and call count -/

theorem translateLineLoop_iters_inv (bt : String) (b : Nat → JsStr → JsStr) :
    ∀ fuel doc i e c, e + 1 - i ≤ fuel →
      (translateLineLoop bt b doc i e c).iters = e + 1 - i := by
  intro fuel
  induction fuel with
  | zero =>
    intro doc i e c hf
    rw [translateLineLoop_stop bt b doc i e c (by omega)]
    dsimp only
    omega
  | succ fuel ih =>
    intro doc i e c hf
    by_cases h : i ≤ e
    · cases hws : isWhitespaceOnly (lineAt doc i) with
      | true =>
        rw [translateLineLoop_ws bt b doc i e c h hws]
        dsimp only
        rw [ih doc (i + 1) e c (by omega)]
        omega
      | false =>
        rw [translateLineLoop_proc bt b doc i e c h hws]
        dsimp only
        rw [ih _ ((i + (getLinesAdded bt + 1)) + 1) (e + (getLinesAdded bt + 1))
          (c + 1) (by omega)]
        omega
    · rw [translateLineLoop_stop bt b doc i e c h]
      dsimp only
      omega

/-- Master invariant of the per-line loop: when the tail of the working
document from the current index agrees with the tail of the original
document from the corresponding original index (the inserted blocks all
lie strictly before the current position), the loop performs exactly one
translation call per non-whitespace original line of the remaining
range.  `sh` is the accumulated downward shift. -/
theorem translateLineLoop_calls_inv (bt : String) (b : Nat → JsStr → JsStr)
    (hb : ∀ k l, '\n' ∉ b k l) (doc0 : List JsStr)
    (hdoc : ∀ l ∈ doc0, '\n' ∉ l) :
    ∀ fuel i0 e0 sh doc calls, e0 + 1 - i0 ≤ fuel →
      doc.drop (i0 + sh) = doc0.drop i0 →
      (translateLineLoop bt b doc (i0 + sh) (e0 + sh) calls).calls
        = calls + countNonWs doc0 i0 e0 := by
  intro fuel
  induction fuel with
  | zero =>
    intro i0 e0 sh doc calls hf hdrop
    rw [translateLineLoop_stop bt b doc _ _ calls (by omega),
      countNonWs_of_gt doc0 i0 e0 (by omega)]
    dsimp only
    omega
  | succ fuel ih =>
    intro i0 e0 sh doc calls hf hdrop
    by_cases h : i0 ≤ e0
    · have hle : i0 + sh ≤ e0 + sh := by omega
      have hline : lineAt doc (i0 + sh) = lineAt doc0 i0 :=
        lineAt_eq_of_drop_eq doc doc0 i0 sh hdrop
      have hd2 : doc.drop ((i0 + sh) + 1) = doc0.drop (i0 + 1) := by
        have c1 := congrArg (List.drop 1) hdrop
        rw [List.drop_drop, List.drop_drop] at c1
        exact c1
      cases hws : isWhitespaceOnly (lineAt doc (i0 + sh)) with
      | true =>
        rw [translateLineLoop_ws bt b doc _ _ calls hle hws]
        dsimp only
        have e_i : (i0 + sh) + 1 = (i0 + 1) + sh := by omega
        rw [e_i] at hd2 ⊢
        rw [ih (i0 + 1) e0 sh doc calls (by omega) hd2]
        have hws0 : isWhitespaceOnly (lineAt doc0 i0) = true := by
          rw [← hline]; exact hws
        rw [countNonWs_step doc0 i0 e0 h, hws0]
        simp
      | false =>
        have hws0 : isWhitespaceOnly (lineAt doc0 i0) = false := by
          rw [← hline]; exact hws
        have hsome : doc[i0 + sh]? = some (lineAt doc (i0 + sh)) :=
          getElem?_of_not_ws doc (i0 + sh) hws
        have hsome0 : doc0[i0]? = some (lineAt doc0 i0) :=
          getElem?_of_not_ws doc0 i0 hws0
        have hmem : lineAt doc0 i0 ∈ doc0 :=
          List.mem_iff_getElem?.mpr ⟨i0, hsome0⟩
        have hnl : '\n' ∉ lineAt doc (i0 + sh) := by
          rw [hline]; exact hdoc _ hmem
        rw [translateLineLoop_proc bt b doc _ _ calls hle hws]
        dsimp only
        have hfmtlen : (jsSplitOnNl (formatTranslation bt
            (b calls (lineAt doc (i0 + sh))))).length = getLinesAdded bt :=
          formatTranslation_lines_count bt _ (hb calls (lineAt doc (i0 + sh)))
        have hd1 := drop_replaceRange_fullLine doc (i0 + sh)
          (lineAt doc (i0 + sh))
          (formatTranslation bt (b calls (lineAt doc (i0 + sh)))) hsome hnl
        rw [hfmtlen] at hd1
        have e_d : (i0 + sh) + getLinesAdded bt + 2
            = (i0 + 1) + (sh + (getLinesAdded bt + 1)) := by omega
        rw [e_d] at hd1
        have hdrop2 := hd1.trans hd2
        have e_i : ((i0 + sh) + (getLinesAdded bt + 1)) + 1
            = (i0 + 1) + (sh + (getLinesAdded bt + 1)) := by omega
        have e_e : (e0 + sh) + (getLinesAdded bt + 1)
            = e0 + (sh + (getLinesAdded bt + 1)) := by omega
        rw [e_i, e_e, ih (i0 + 1) e0 (sh + (getLinesAdded bt + 1)) _
          (calls + 1) (by omega) hdrop2]
        rw [countNonWs_step doc0 i0 e0 h, hws0]
        simp
        omega
    · rw [translateLineLoop_stop bt b doc _ _ calls (by omega),
        countNonWs_of_gt doc0 i0 e0 (by omega)]
      dsimp only
      omega

/-! ### Claims -/

/-- C1: in the per-line translate-and-append command, a line of the range
whose text is not entirely whitespace is replaced, over its full
character range, by `originalLine + newline + formattedBlock + newline`
— so the original line stays in place and the formatted translation
follows it as new lines (plus the empty boundary line) — after which the
loop body advances both `i` and `endLine` by exactly
`getLinesAdded bt + 1` (the final `+ 1` on the loop index in the
statement below is the `for` step's own increment, as the claim set's
C10 spells out). -/
theorem claim1_processed_line_step (bt : String) (b : Nat → JsStr → JsStr)
    (doc : List JsStr) (i e c : Nat) (h : i ≤ e)
    (hws : isWhitespaceOnly (lineAt doc i) = false)
    (hnl : '\n' ∉ lineAt doc i) :
    replaceRange doc
        (lineAt doc i ++ ['\n'] ++
          formatTranslation bt (b c (lineAt doc i)) ++ ['\n'])
        i 0 (lineAt doc i).length
      = (doc.take i ++ (lineAt doc i ::
          (jsSplitOnNl (formatTranslation bt (b c (lineAt doc i))) ++ [[]]))) ++
          doc.drop (i + 1)
    ∧ translateLineLoop bt b doc i e c =
      ⟨(translateLineLoop bt b
          (replaceRange doc
            (lineAt doc i ++ ['\n'] ++
              formatTranslation bt (b c (lineAt doc i)) ++ ['\n'])
            i 0 (lineAt doc i).length)
          ((i + (getLinesAdded bt + 1)) + 1) (e + (getLinesAdded bt + 1))
          (c + 1)).doc,
       (translateLineLoop bt b
          (replaceRange doc
            (lineAt doc i ++ ['\n'] ++
              formatTranslation bt (b c (lineAt doc i)) ++ ['\n'])
            i 0 (lineAt doc i).length)
          ((i + (getLinesAdded bt + 1)) + 1) (e + (getLinesAdded bt + 1))
          (c + 1)).calls,
       (translateLineLoop bt b
          (replaceRange doc
            (lineAt doc i ++ ['\n'] ++
              formatTranslation bt (b c (lineAt doc i)) ++ ['\n'])
            i 0 (lineAt doc i).length)
          ((i + (getLinesAdded bt + 1)) + 1) (e + (getLinesAdded bt + 1))
          (c + 1)).iters + 1,
       i :: (translateLineLoop bt b
          (replaceRange doc
            (lineAt doc i ++ ['\n'] ++
              formatTranslation bt (b c (lineAt doc i)) ++ ['\n'])
            i 0 (lineAt doc i).length)
          ((i + (getLinesAdded bt + 1)) + 1) (e + (getLinesAdded bt + 1))
          (c + 1)).inspected⟩ :=
  ⟨replaceRange_fullLine doc i (lineAt doc i) _
    (getElem?_of_not_ws doc i hws) hnl,
   translateLineLoop_proc bt b doc i e c h hws⟩

/-- Witness for C1 at the single line `Hi`, quotation block type, backend
answering `Salut`. -/
theorem claim1_witness :
    replaceRange ["Hi".data]
        (lineAt ["Hi".data] 0 ++ ['\n'] ++
          formatTranslation "quotation"
            ((fun _ _ => "Salut".data) 0 (lineAt ["Hi".data] 0)) ++ ['\n'])
        0 0 (lineAt ["Hi".data] 0).length
      = (List.take 0 ["Hi".data] ++ (lineAt ["Hi".data] 0 ::
          (jsSplitOnNl (formatTranslation "quotation"
            ((fun _ _ => "Salut".data) 0 (lineAt ["Hi".data] 0))) ++ [[]]))) ++
          List.drop (0 + 1) ["Hi".data]
    ∧ translateLineLoop "quotation" (fun _ _ => "Salut".data) ["Hi".data]
        0 0 0 =
      ⟨(translateLineLoop "quotation" (fun _ _ => "Salut".data)
          (replaceRange ["Hi".data]
            (lineAt ["Hi".data] 0 ++ ['\n'] ++
              formatTranslation "quotation"
                ((fun _ _ => "Salut".data) 0 (lineAt ["Hi".data] 0)) ++ ['\n'])
            0 0 (lineAt ["Hi".data] 0).length)
          ((0 + (getLinesAdded "quotation" + 1)) + 1)
          (0 + (getLinesAdded "quotation" + 1)) (0 + 1)).doc,
       (translateLineLoop "quotation" (fun _ _ => "Salut".data)
          (replaceRange ["Hi".data]
            (lineAt ["Hi".data] 0 ++ ['\n'] ++
              formatTranslation "quotation"
                ((fun _ _ => "Salut".data) 0 (lineAt ["Hi".data] 0)) ++ ['\n'])
            0 0 (lineAt ["Hi".data] 0).length)
          ((0 + (getLinesAdded "quotation" + 1)) + 1)
          (0 + (getLinesAdded "quotation" + 1)) (0 + 1)).calls,
       (translateLineLoop "quotation" (fun _ _ => "Salut".data)
          (replaceRange ["Hi".data]
            (lineAt ["Hi".data] 0 ++ ['\n'] ++
              formatTranslation "quotation"
                ((fun _ _ => "Salut".data) 0 (lineAt ["Hi".data] 0)) ++ ['\n'])
            0 0 (lineAt ["Hi".data] 0).length)
          ((0 + (getLinesAdded "quotation" + 1)) + 1)
          (0 + (getLinesAdded "quotation" + 1)) (0 + 1)).iters + 1,
       0 :: (translateLineLoop "quotation" (fun _ _ => "Salut".data)
          (replaceRange ["Hi".data]
            (lineAt ["Hi".data] 0 ++ ['\n'] ++
              formatTranslation "quotation"
                ((fun _ _ => "Salut".data) 0 (lineAt ["Hi".data] 0)) ++ ['\n'])
            0 0 (lineAt ["Hi".data] 0).length)
          ((0 + (getLinesAdded "quotation" + 1)) + 1)
          (0 + (getLinesAdded "quotation" + 1)) (0 + 1)).inspected⟩ :=
  claim1_processed_line_step "quotation" (fun _ _ => "Salut".data)
    ["Hi".data] 0 0 0 (by decide) (by decide) (by decide)

/-- C2 counterexample: for the quotation block type and the single-line
input `Hi`, `formatTranslation` introduces zero newline characters while
`getLinesAdded` returns 1, so `getLinesAdded` does not equal the number
of newline characters introduced by the formatter. -/
theorem claim2_counterexample :
    ¬ (getLinesAdded "quotation" =
        (formatTranslation "quotation" "Hi".data).count '\n' -
          ("Hi".data).count '\n') := by
  decide

/-- C2 amended: for each of the three block types and every single-line
input `x`, `getLinesAdded` equals the number of newline characters
introduced by `formatTranslation` plus one (the extra slack line matches
the extra newline appended by the batch engine's replacement template). -/
theorem claim2_amended_linesAdded (bt : String)
    (_hbt : bt = "codeblock" ∨ bt = "quotation" ∨ bt = "callout")
    (x : JsStr) (hx : '\n' ∉ x) :
    getLinesAdded bt = (formatTranslation bt x).count '\n' + 1 := by
  have h1 := jsSplitOnNl_length (formatTranslation bt x)
  have h2 := formatTranslation_lines_count bt x hx
  omega

/-- Witness for C2 (amended) at the codeblock block type and input
`Hello`. -/
theorem claim2_witness :
    getLinesAdded "codeblock" =
      (formatTranslation "codeblock" "Hello".data).count '\n' + 1 :=
  claim2_amended_linesAdded "codeblock" (Or.inl rfl) "Hello".data (by decide)

/-- C3 counterexample: with codeblock block type and backend answering
`Bonjour`, processing the line `Hello` (followed by a whitespace line so
that the loop continues) does not inspect line `original index + 4`
next: the inspected indices are `[0, 5]`, not `[0, 4]`. -/
theorem claim3_counterexample :
    ¬ (translateLineLoop "codeblock" (fun _ _ => "Bonjour".data)
        ["Hello".data, [' ']] 0 1 0).inspected = [0, 0 + 4] := by
  rw [translateLineLoop_eval]
  decide

/-- C3 amended: with codeblock block type, input line `Hello` and backend
answering `Bonjour`, the document at that position becomes `Hello`
followed by a fenced code block containing `Bonjour` (then the empty
boundary line), and the loop's next inspected line index is the original
index + 5 (the body advances the index by `getLinesAdded() + 1 = 4` and
the `for` step adds one more). -/
theorem claim3_codeblock_scenario :
    (translateLineLoop "codeblock" (fun _ _ => "Bonjour".data)
        ["Hello".data, [' ']] 0 1 0).doc
      = ["Hello".data, "```".data, "Bonjour".data, "```".data, [], [' ']]
    ∧ (translateLineLoop "codeblock" (fun _ _ => "Bonjour".data)
        ["Hello".data, [' ']] 0 1 0).inspected = [0, 0 + 5] := by
  constructor <;> (rw [translateLineLoop_eval]; decide)

/-- C4: over any document whose lines are newline-free and any backend
returning single-line text for each call, the per-line command performs
exactly one translation call per non-whitespace line of the original
range — inserted lines are never re-read and no original line is
skipped. -/
theorem claim4_one_call_per_nonblank_line (bt : String)
    (b : Nat → JsStr → JsStr) (doc : List JsStr) (s e : Nat)
    (hdoc : ∀ l ∈ doc, '\n' ∉ l) (hb : ∀ k l, '\n' ∉ b k l) :
    (translateLineLoop bt b doc s e 0).calls = countNonWs doc s e := by
  have h := translateLineLoop_calls_inv bt b hb doc hdoc (e + 1 - s) s e 0
    doc 0 le_rfl (by simp)
  simpa using h

/-- Witness for C4 on a three-line document with a whitespace middle
line, codeblock block type. -/
theorem claim4_witness :
    (translateLineLoop "codeblock" (fun _ _ => "Bonjour".data)
        ["Hello".data, [' '], "World".data] 0 2 0).calls
      = countNonWs ["Hello".data, [' '], "World".data] 0 2 :=
  claim4_one_call_per_nonblank_line "codeblock" (fun _ _ => "Bonjour".data)
    ["Hello".data, [' '], "World".data] 0 2 (by decide)
    (by intro k l; show '\n' ∉ "Bonjour".data; decide)

/-- C5: `translateText` never propagates a backend failure: on any error
it returns the original input text unchanged together with the
user-visible error notice, and on success it returns the backend's
translated string (with no notice). -/
theorem claim5_translateText_contract (s : InlineTranslateSettings)
    (backend : JsStr → String → String → Except JsStr JsStr) (text : JsStr) :
    (∀ err, backend text s.targetLanguage
        (if 0 < s.preferredLanguages.length then
          s.preferredLanguages.headD "auto"
        else "auto") = Except.error err →
      translateText s backend text
        = (text, ["Error translating text. Please try again later.".data]))
    ∧ (∀ t, backend text s.targetLanguage
        (if 0 < s.preferredLanguages.length then
          s.preferredLanguages.headD "auto"
        else "auto") = Except.ok t →
      translateText s backend text = (t, [])) := by
  constructor <;> intro r hr <;> simp only [translateText, hr]

/-- Witness for C5: a failing backend echoes the input with the notice, a
succeeding backend's string is returned as is. -/
theorem claim5_witness :
    translateText DEFAULT_SETTINGS (fun _ _ _ => Except.error []) "Hi".data
      = ("Hi".data, ["Error translating text. Please try again later.".data])
    ∧ translateText DEFAULT_SETTINGS (fun _ _ _ => Except.ok "Salut".data)
        "Hi".data
      = ("Salut".data, []) :=
  ⟨(claim5_translateText_contract DEFAULT_SETTINGS
      (fun _ _ _ => Except.error []) "Hi".data).1 [] rfl,
   (claim5_translateText_contract DEFAULT_SETTINGS
      (fun _ _ _ => Except.ok "Salut".data) "Hi".data).2 "Salut".data rfl⟩

/-- C6: a line of the range that is entirely whitespace (including empty)
is skipped: the document is passed on unchanged, no translation call is
made, and neither the loop index nor `endLine` is adjusted beyond the
normal step to the next line. -/
theorem claim6_whitespace_line_skipped (bt : String)
    (b : Nat → JsStr → JsStr) (doc : List JsStr) (i e c : Nat) (h : i ≤ e)
    (hws : isWhitespaceOnly (lineAt doc i) = true) :
    translateLineLoop bt b doc i e c =
      ⟨(translateLineLoop bt b doc (i + 1) e c).doc,
       (translateLineLoop bt b doc (i + 1) e c).calls,
       (translateLineLoop bt b doc (i + 1) e c).iters + 1,
       i :: (translateLineLoop bt b doc (i + 1) e c).inspected⟩ :=
  translateLineLoop_ws bt b doc i e c h hws

/-- Witness for C6 at a one-line whitespace document. -/
theorem claim6_witness :
    translateLineLoop "codeblock" (fun _ _ => "x".data) [[' ']] 0 0 0 =
      ⟨(translateLineLoop "codeblock" (fun _ _ => "x".data) [[' ']]
          (0 + 1) 0 0).doc,
       (translateLineLoop "codeblock" (fun _ _ => "x".data) [[' ']]
          (0 + 1) 0 0).calls,
       (translateLineLoop "codeblock" (fun _ _ => "x".data) [[' ']]
          (0 + 1) 0 0).iters + 1,
       0 :: (translateLineLoop "codeblock" (fun _ _ => "x".data) [[' ']]
          (0 + 1) 0 0).inspected⟩ :=
  claim6_whitespace_line_skipped "codeblock" (fun _ _ => "x".data) [[' ']]
    0 0 0 (by decide) (by decide)

/-- C7: the quotation block type prefixes every line (splitting on
newline) with the quotation marker and adds 1; the callout block type
prefixes every line with the quotation marker and prepends the
collapsible translation callout declaration line, and adds 2; any block
type outside the three valid values leaves the text unchanged and adds
1. -/
theorem claim7_formatter_policy (text : JsStr) :
    (jsSplitOnNl (formatTranslation "quotation" text)
        = (jsSplitOnNl text).map (fun line => "> ".data ++ line)
      ∧ getLinesAdded "quotation" = 1)
    ∧ (jsSplitOnNl (formatTranslation "callout" text)
        = "> [!translation]- ...".data ::
            (jsSplitOnNl text).map (fun line => "> ".data ++ line)
      ∧ getLinesAdded "callout" = 2)
    ∧ ∀ bt : String,
        bt ∉ (["codeblock", "quotation", "callout"] : List String) →
        formatTranslation bt text = text ∧ getLinesAdded bt = 1 := by
  refine ⟨⟨formatTranslation_quot_lines text, rfl⟩,
    ⟨formatTranslation_callout_lines text, rfl⟩, ?_⟩
  intro bt hbt
  simp only [List.mem_cons, List.mem_singleton, not_or] at hbt
  obtain ⟨h1, h2, h3, -⟩ := hbt
  exact ⟨formatTranslation_default bt text h1 h2 h3,
    by simp [getLinesAdded, h1, h2, h3]⟩

/-- Witness for C7 at the two-line text `Salut\nMonde` and the unknown
block type `html`. -/
theorem claim7_witness :
    (jsSplitOnNl (formatTranslation "quotation" "Salut\nMonde".data)
        = (jsSplitOnNl "Salut\nMonde".data).map
            (fun line => "> ".data ++ line)
      ∧ getLinesAdded "quotation" = 1)
    ∧ (jsSplitOnNl (formatTranslation "callout" "Salut\nMonde".data)
        = "> [!translation]- ...".data ::
            (jsSplitOnNl "Salut\nMonde".data).map
              (fun line => "> ".data ++ line)
      ∧ getLinesAdded "callout" = 2)
    ∧ (formatTranslation "html" "Salut\nMonde".data = "Salut\nMonde".data
      ∧ getLinesAdded "html" = 1) :=
  ⟨(claim7_formatter_policy "Salut\nMonde".data).1,
   (claim7_formatter_policy "Salut\nMonde".data).2.1,
   (claim7_formatter_policy "Salut\nMonde".data).2.2 "html" (by decide)⟩

/-- C8: loading overlays the persisted values on the hard-coded defaults
field by field — a present field wins, a missing field falls back to its
default (`codeblock`, `[]`, `en`) — and saving then loading restores the
settings record exactly. -/
theorem claim8_settings_overlay :
    (∀ s : InlineTranslateSettings, loadSettings (saveSettings s) = s)
    ∧ ∀ p : PersistedSettings,
        (∀ v, p.blockType = some v → (loadSettings p).blockType = v)
        ∧ (p.blockType = none → (loadSettings p).blockType = "codeblock")
        ∧ (∀ v, p.preferredLanguages = some v →
            (loadSettings p).preferredLanguages = v)
        ∧ (p.preferredLanguages = none →
            (loadSettings p).preferredLanguages = [])
        ∧ (∀ v, p.targetLanguage = some v →
            (loadSettings p).targetLanguage = v)
        ∧ (p.targetLanguage = none → (loadSettings p).targetLanguage = "en") := by
  refine ⟨fun s => rfl, fun p => ⟨?_, ?_, ?_, ?_, ?_, ?_⟩⟩
  · intro v hv; simp [loadSettings, hv, DEFAULT_SETTINGS]
  · intro hv; simp [loadSettings, hv, DEFAULT_SETTINGS]
  · intro v hv; simp [loadSettings, hv, DEFAULT_SETTINGS]
  · intro hv; simp [loadSettings, hv, DEFAULT_SETTINGS]
  · intro v hv; simp [loadSettings, hv, DEFAULT_SETTINGS]
  · intro hv; simp [loadSettings, hv, DEFAULT_SETTINGS]

/-- Witness for C8: a full round-trip and a load from a partial persisted
object with only the block type present. -/
theorem claim8_witness :
    loadSettings (saveSettings ⟨"quotation", ["fr"], "de"⟩)
      = ⟨"quotation", ["fr"], "de"⟩
    ∧ (loadSettings ⟨some "callout", none, none⟩).blockType = "callout"
    ∧ (loadSettings ⟨some "callout", none, none⟩).preferredLanguages = []
    ∧ (loadSettings ⟨some "callout", none, none⟩).targetLanguage = "en" :=
  ⟨claim8_settings_overlay.1 ⟨"quotation", ["fr"], "de"⟩,
   (claim8_settings_overlay.2 ⟨some "callout", none, none⟩).1 "callout" rfl,
   (claim8_settings_overlay.2 ⟨some "callout", none, none⟩).2.2.2.1 rfl,
   (claim8_settings_overlay.2 ⟨some "callout", none, none⟩).2.2.2.2.2 rfl⟩

/-- C9: the quick-translate-to-clipboard command invoked with no
selection shows exactly the notice `No text selected for translation.`,
does not write the clipboard, makes no translation call, and leaves the
document unchanged. -/
theorem claim9_no_selection_notice (s : InlineTranslateSettings)
    (backend : JsStr → String → String → Except JsStr JsStr)
    (doc : List JsStr) :
    translateToNoticeCmd s backend [] doc =
      ⟨["No text selected for translation.".data], none, doc, 0⟩ := by
  simp [translateToNoticeCmd]

/-- C10: the per-line loop terminates after exactly
`endLine - startLine + 1` iterations: each iteration decreases
`endLine + 1 - i` by exactly one, whether the line is skipped (`i`
advances by 1, `endLine` unchanged) or processed (`i` advances by
`getLinesAdded() + 2` — body increment plus loop increment — and
`endLine` by `getLinesAdded() + 1`). -/
theorem claim10_loop_iterations (bt : String) (b : Nat → JsStr → JsStr)
    (doc : List JsStr) (s e : Nat) (h : s ≤ e) :
    (translateLineLoop bt b doc s e 0).iters = e - s + 1 := by
  have h1 := translateLineLoop_iters_inv bt b (e + 1 - s) doc s e 0 le_rfl
  omega

/-- Witness for C10 on a two-line range. -/
theorem claim10_witness :
    (translateLineLoop "quotation" (fun _ _ => "x".data)
        ["a".data, "b".data] 0 1 0).iters = 1 - 0 + 1 :=
  claim10_loop_iterations "quotation" (fun _ _ => "x".data)
    ["a".data, "b".data] 0 1 (by decide)

